import Mathlib

/-!
Verification of the route registry and path tokenizer of
`github.com/ritego/build-a-router-with-go` (files `router/index.go` and
`router/router.go`), shallowly embedded in Lean 4.

Go strings are modelled as lists of characters.  Panics are modelled as
explicit error results (`Except` / an error component of the returned
state), since a Go panic aborts the call leaving the receiver's fields
as they were before the mutation.
-/

namespace RiteGoRouter

/-- Go strings, modelled as lists of characters. -/
abbrev GoStr := List Char

/-- Model of Go `strings.Split(s, sep)` for a one-character separator:
splits around every occurrence of `sep`; the empty string yields `[""]`. -/
def splitOnChar (sep : Char) : GoStr → List GoStr
  | [] => [[]]
  | c :: rest =>
    if c = sep then [] :: splitOnChar sep rest
    else
      match splitOnChar sep rest with
      | [] => [[c]]
      | s :: ss => (c :: s) :: ss

/-- Model of Go `strings.TrimPrefix(s, "/")`: removes one leading `'/'`
if present (`index.go` line 36). -/
def trimPre : GoStr → GoStr
  | '/' :: rest => rest
  | s => s

/-- Model of Go `strings.TrimSuffix(s, "/")`: removes one trailing `'/'`
if present (`index.go` line 37). -/
def trimSuf (s : GoStr) : GoStr :=
  if s.getLast? = some '/' then s.dropLast else s

/-- Model of Go `strings.EqualFold` restricted to ASCII inputs (the
allow-listed HTTP verbs are all ASCII): case-insensitive equality via
lower-casing. -/
def equalFold (a b : GoStr) : Bool :=
  a.map Char.toLower == b.map Char.toLower

/-- Translation of `isValidMethod` (`index.go` lines 15-22): the method
must match one of the six allow-listed verbs case-insensitively. -/
def isValidMethod (method : GoStr) : Bool :=
  (["GET", "POST", "PUT", "DELETE", "HEAD", "OPTIONS"].map String.data).any
    (fun m => equalFold m method)

/-- Model of Go `net/url`'s `ishex`-based hex-digit decoding. -/
def unhex (c : Char) : Option Nat :=
  if '0' ≤ c ∧ c ≤ '9' then some (c.toNat - '0'.toNat)
  else if 'a' ≤ c ∧ c ≤ 'f' then some (c.toNat - 'a'.toNat + 10)
  else if 'A' ≤ c ∧ c ≤ 'F' then some (c.toNat - 'A'.toNat + 10)
  else none

/-- Model of Go `net/url`'s percent-unescaping: every `%` must be
followed by two hex digits, which decode to one character; anything
else is copied through.  Invalid escapes fail (Go `EscapeError`). -/
def pctDecode : GoStr → Option GoStr
  | [] => some []
  | c :: rest =>
    if c = '%' then
      match rest with
      | a :: b :: rest2 =>
        match unhex a, unhex b with
        | some ha, some hb =>
          (pctDecode rest2).map (fun t => Char.ofNat (16 * ha + hb) :: t)
        | _, _ => none
      | _ => none
    else (pctDecode rest).map (fun t => c :: t)

/-- The `host` and `path` components of a parsed URL (Go `url.URL`,
restricted to the two fields this router reads). -/
structure GoURL where
  host : GoStr
  path : GoStr
deriving DecidableEq

/-- Model of Go `net/url`'s `stringContainsCTLByte` test on one
character: an ASCII control byte is below space or is DEL (0x7f).
Characters above 0x7f encode to UTF-8 bytes ≥ 0x80, so the byte-wise
check of the original is exactly this character-wise one. -/
def ctlByte (c : Char) : Bool := c.toNat < 32 || c.toNat == 127

/-- Model of the fragment of Go `net/url.Parse` reachable from
`tokenize`: the argument never contains `':'` (it is one segment of a
split on `':'`), so no scheme is possible.  The fragment part after the
first `'#'` is cut off first; the remainder fails if it contains an
ASCII control byte (Go ≥ 1.12, `stringContainsCTLByte`); then the query
after the first `'?'` is cut off.  A remainder beginning with `"//"` —
but not `"///"`, which Go leaves whole in the path for schemeless
references — has its authority (up to the next `'/'`) taken as the
host; the rest is the percent-decoded path.  Userinfo (`'@'`) and
bracketed hosts are outside the modelled fragment. -/
def urlParse (s : GoStr) : Option GoURL :=
  let rest1 := s.takeWhile (fun c => c ≠ '#')
  if rest1.any ctlByte then none
  else
    let rest2 := rest1.takeWhile (fun c => c ≠ '?')
    if rest2.take 2 = ['/', '/'] ∧ ¬rest2.take 3 = ['/', '/', '/'] then
      let after := rest2.drop 2
      let auth := after.takeWhile (fun c => c ≠ '/')
      let pathPart := after.dropWhile (fun c => c ≠ '/')
      match pctDecode auth, pctDecode pathPart with
      | some h, some p => some ⟨h, p⟩
      | _, _ => none
    else
      match pctDecode rest2 with
      | some p => some ⟨[], p⟩
      | none => none

/-- The three panic values `tokenize` can raise (`index.go` lines 9-13
and the propagated `url.Parse` error). -/
inductive TokErr where
  | badPath
  | methodNotAllowed
  | urlParseFailure
deriving DecidableEq

/-- The URL-spec normalization of `tokenize` (`index.go` lines 35-41):
strip one leading and one trailing `'/'`; an empty remainder becomes
`"/"`. -/
def trimmedUrl (u : GoStr) : GoStr :=
  let t := trimSuf (trimPre u)
  if t = [] then ['/'] else t

/-- The body of `tokenize` after the split on `':'` (`index.go` lines
26-48): exactly two segments are required, the first must be an
allow-listed method, the second is normalized and URL-parsed. -/
def tokenizeParts : List GoStr → Except TokErr (GoStr × GoStr × GoStr)
  | [pathMethod, pathUrl] =>
    if isValidMethod pathMethod then
      match urlParse (trimmedUrl pathUrl) with
      | none => .error .urlParseFailure
      | some u => .ok (pathMethod, u.host, u.path)
    else .error .methodNotAllowed
  | _ => .error .badPath

/-- Translation of `tokenize` (`index.go` lines 24-49): split the spec
on `':'` and process the two parts.  The returned triple is
`(method, host, path)`; panics are the `.error` results. -/
def tokenize (path : GoStr) : Except TokErr (GoStr × GoStr × GoStr) :=
  tokenizeParts (splitOnChar ':' path)

/-- Translation of `Route` (`router.go`, tutorial final form): one
registered route.  Handlers (`http.Handler`) are opaque; they are
modelled by an arbitrary type `H`. -/
structure Route (H : Type) where
  method : GoStr
  host : GoStr
  path : GoStr
  handler : H
deriving DecidableEq

/-- The failures a registration call can raise: a `nil` handler
(`ErrNilHandler`, or `HandleFunc`'s equivalent string panic), or a
propagated `tokenize` panic. -/
inductive RegErr where
  | nilHandler
  | tok (e : TokErr)
deriving DecidableEq

/-- Translation of `(*Router).Handle` (`router.go` lines 14-25) as a
state transformer on the `routes` slice.  A `nil` handler argument is
`none`.  On a panic (second component `some _`) the slice is returned
unchanged, since the panic fires before the `append`. -/
def Handle {H : Type} (routes : List (Route H)) (path : GoStr)
    (handler : Option H) : List (Route H) × Option RegErr :=
  match handler with
  | none => (routes, some RegErr.nilHandler)
  | some h =>
    match tokenize path with
    | .error e => (routes, some (RegErr.tok e))
    | .ok (m, hs, p) => (routes ++ [⟨m, hs, p, h⟩], none)

/-- Translation of `(*Router).HandleFunc` (`router.go` lines 27-32):
checks the function for `nil` itself (panicking with an equivalent
message), then wraps it (`http.HandlerFunc`, identity in the model)
and delegates to `Handle`. -/
def HandleFunc {H : Type} (routes : List (Route H)) (path : GoStr)
    (handler : Option H) : List (Route H) × Option RegErr :=
  match handler with
  | none => (routes, some RegErr.nilHandler)
  | some f => Handle routes path (some f)

/-- The loop of `match` (`router.go` lines 42-48): first route whose
`(method, host, path)` triple equals the request's wins; `none` when no
route matches (the `handler == nil` fall-through). -/
def findRoute {H : Type} (m hs p : GoStr) : List (Route H) → Option H
  | [] => none
  | route :: rest =>
    if route.method = m ∧ route.host = hs ∧ route.path = p then
      some route.handler
    else findRoute m hs p rest

/-- Translation of `(*Router).match` (`router.go` lines 39-56): the
request's method and URL path are re-tokenized as `method + ":" + path`;
a `tokenize` panic aborts the dispatch (the `.error` result). -/
def matchReq {H : Type} (routes : List (Route H)) (method urlPath : GoStr) :
    Except TokErr (Option H) :=
  match tokenize (method ++ ':' :: urlPath) with
  | .error e => .error e
  | .ok (m, hs, p) => .ok (findRoute m hs p routes)

/-- Outcome of a dispatch that did not panic: a matched handler, or the
default `http.NotFoundHandler()`. -/
inductive Dispatched (H : Type) where
  | handler (h : H)
  | notFound
deriving DecidableEq

/-- Translation of `(*Router).ServeHTTP` (`router.go` lines 34-37)
together with `match`'s not-found fall-through: dispatch the request to
the first matching route's handler, or to the not-found handler. -/
def serveHTTP {H : Type} (routes : List (Route H)) (method urlPath : GoStr) :
    Except TokErr (Dispatched H) :=
  match matchReq routes method urlPath with
  | .error e => .error e
  | .ok none => .ok .notFound
  | .ok (some h) => .ok (.handler h)

/-- Translation of `New` (`index.go` lines 51-53): a fresh router has an
empty route slice. -/
def New (H : Type) : List (Route H) := []

/-- A URL-spec remainder within the plainly-parsed fragment of
`urlParse`: no fragment, query or escape characters, and no leading
slash (except the root `"/"` itself), so no authority is parsed. -/
def goodUrl (t : GoStr) : Bool :=
  decide ('#' ∉ t) && decide ('?' ∉ t) && decide ('%' ∉ t) &&
    (decide (t = ['/']) || decide (t.head? ≠ some '/'))

/-- A trimmed URL-spec that is plainly parsed and additionally carries
no leading or trailing slash (root excepted), so that the stored path
keeps the slash-free shape. -/
def goodTrimmed (t : GoStr) : Bool :=
  goodUrl t &&
    (decide (t = ['/']) ||
      (decide (t.head? ≠ some '/') && decide (t.getLast? ≠ some '/')))

/-- Registry states reachable from the empty router by successful
`Handle` calls whose spec is `m ++ ":" ++ u` with a plainly-parsed
trimmed URL part. -/
inductive ReachablePlain {H : Type} : List (Route H) → Prop where
  | empty : ReachablePlain []
  | step (r : List (Route H)) (m u : GoStr) (h : H)
      (hm : ':' ∉ m) (hu : ':' ∉ u)
      (hplain : goodTrimmed (trimmedUrl u) = true)
      (hr : ReachablePlain r) :
      ReachablePlain (Handle r (m ++ ':' :: u) (some h)).1

section Lemmas

theorem splitOnChar_ne_nil (sep : Char) : ∀ s : GoStr, splitOnChar sep s ≠ []
  | [] => by simp [splitOnChar]
  | c :: rest => by
    by_cases h : c = sep
    · simp [splitOnChar, h]
    · simp only [splitOnChar, if_neg h]
      cases hr : splitOnChar sep rest with
      | nil => exact absurd hr (splitOnChar_ne_nil sep rest)
      | cons s ss => simp

theorem splitOnChar_not_mem {sep : Char} :
    ∀ {s : GoStr}, sep ∉ s → splitOnChar sep s = [s]
  | [], _ => rfl
  | c :: rest, h => by
    have hc : ¬c = sep := fun hh => h (hh ▸ List.mem_cons_self c rest)
    have hr : sep ∉ rest := fun hh => h (List.mem_cons_of_mem _ hh)
    simp only [splitOnChar, if_neg hc, splitOnChar_not_mem hr]

theorem splitOnChar_append {sep : Char} :
    ∀ {m u : GoStr}, sep ∉ m → sep ∉ u →
      splitOnChar sep (m ++ sep :: u) = [m, u]
  | [], u, _, hu => by
    simp [splitOnChar, splitOnChar_not_mem hu]
  | c :: m, u, hm, hu => by
    have hc : ¬c = sep := fun hh => hm (hh ▸ List.mem_cons_self c m)
    have hm2 : sep ∉ m := fun hh => hm (List.mem_cons_of_mem _ hh)
    have ih : splitOnChar sep (m ++ sep :: u) = [m, u] :=
      splitOnChar_append hm2 hu
    simp only [List.cons_append, splitOnChar, if_neg hc, List.append_eq, ih]

theorem length_splitOnChar (sep : Char) :
    ∀ s : GoStr, (splitOnChar sep s).length = s.count sep + 1
  | [] => by simp [splitOnChar]
  | c :: rest => by
    have ih := length_splitOnChar sep rest
    by_cases h : c = sep
    · simp [splitOnChar, h, List.count_cons, ih]
    · cases hr : splitOnChar sep rest with
      | nil => exact absurd hr (splitOnChar_ne_nil sep rest)
      | cons s ss =>
        rw [hr] at ih
        simp [splitOnChar, if_neg h, hr, List.count_cons, h, ← ih]

theorem takeWhile_ne_of_not_mem {c : Char} :
    ∀ {s : GoStr}, c ∉ s → s.takeWhile (fun x => x ≠ c) = s
  | [], _ => rfl
  | a :: rest, h => by
    have ha : ¬a = c := fun hh => h (hh ▸ List.mem_cons_self a rest)
    have hr : c ∉ rest := fun hh => h (List.mem_cons_of_mem _ hh)
    have ih := takeWhile_ne_of_not_mem (s := rest) hr
    have hd : (decide (a ≠ c)) = true := by simp [ha]
    simp only [List.takeWhile_cons, hd, if_true, ih]

theorem pctDecode_of_not_mem :
    ∀ {s : GoStr}, '%' ∉ s → pctDecode s = some s
  | [], _ => rfl
  | a :: rest, h => by
    have ha : ¬a = '%' := fun hh => h (hh ▸ List.mem_cons_self a rest)
    have hr : '%' ∉ rest := fun hh => h (List.mem_cons_of_mem _ hh)
    have ih := pctDecode_of_not_mem hr
    rw [pctDecode.eq_def]
    simp [ha, ih]

theorem take_two_eq_slash_slash {t : GoStr}
    (h : t.take 2 = ['/', '/']) : t.head? = some '/' := by
  cases t with
  | nil => simp at h
  | cons a rest =>
    simp only [List.take_succ_cons, List.cons.injEq] at h
    simp [h.1]

theorem goodUrl_not_hash {t : GoStr} (hg : goodUrl t = true) :
    '#' ∉ t := by
  simp only [goodUrl, Bool.and_eq_true, decide_eq_true_eq] at hg
  exact hg.1.1.1

theorem urlParse_ctl {t : GoStr} (h1 : '#' ∉ t)
    (hctl : t.any ctlByte = true) : urlParse t = none := by
  simp only [urlParse, takeWhile_ne_of_not_mem h1, hctl]
  rfl

theorem urlParse_good {t : GoStr} (hg : goodUrl t = true)
    (hctl : t.any ctlByte = false) : urlParse t = some ⟨[], t⟩ := by
  simp only [goodUrl, Bool.and_eq_true, Bool.or_eq_true,
    decide_eq_true_eq] at hg
  obtain ⟨⟨⟨h1, h2⟩, h3⟩, h4⟩ := hg
  have hslash : ¬t.take 2 = ['/', '/'] := by
    intro hh
    have := take_two_eq_slash_slash hh
    rcases h4 with h4 | h4
    · rw [h4] at hh; simp at hh
    · exact h4 this
  have hcond : ¬(t.take 2 = ['/', '/'] ∧ ¬t.take 3 = ['/', '/', '/']) :=
    fun hc => hslash hc.1
  simp only [urlParse, takeWhile_ne_of_not_mem h1, hctl,
    Bool.false_eq_true, if_false, takeWhile_ne_of_not_mem h2,
    if_neg hcond, pctDecode_of_not_mem h3]

theorem trimmedUrl_ne_nil (u : GoStr) : trimmedUrl u ≠ [] := by
  simp only [trimmedUrl]
  split
  · simp
  · assumption

theorem tokenize_sep {m u : GoStr} (hm : ':' ∉ m) (hu : ':' ∉ u) :
    tokenize (m ++ ':' :: u) = tokenizeParts [m, u] := by
  simp only [tokenize, splitOnChar_append hm hu]

theorem tokenizeParts_pair_valid {m u : GoStr}
    (hv : isValidMethod m = true) (hg : goodUrl (trimmedUrl u) = true)
    (hctl : (trimmedUrl u).any ctlByte = false) :
    tokenizeParts [m, u] = .ok (m, [], trimmedUrl u) := by
  simp [tokenizeParts, hv, urlParse_good hg hctl]

theorem tokenizeParts_pair_parsefail {m u : GoStr}
    (hv : isValidMethod m = true)
    (hp : urlParse (trimmedUrl u) = none) :
    tokenizeParts [m, u] = .error .urlParseFailure := by
  simp [tokenizeParts, hv, hp]

theorem findRoute_none {H : Type} {m hs p : GoStr} :
    ∀ {l : List (Route H)},
      (∀ rt ∈ l, ¬(rt.method = m ∧ rt.host = hs ∧ rt.path = p)) →
      findRoute m hs p l = none
  | [], _ => rfl
  | rt :: rest, h => by
    have h1 := h rt (List.mem_cons_self rt rest)
    have h2 : ∀ x ∈ rest, ¬(x.method = m ∧ x.host = hs ∧ x.path = p) :=
      fun x hx => h x (List.mem_cons_of_mem _ hx)
    simp [findRoute, h1, findRoute_none h2]

theorem findRoute_append_of_none {H : Type} {m hs p : GoStr} :
    ∀ {l1 : List (Route H)} {l2 : List (Route H)},
      (∀ rt ∈ l1, ¬(rt.method = m ∧ rt.host = hs ∧ rt.path = p)) →
      findRoute m hs p (l1 ++ l2) = findRoute m hs p l2
  | [], _, _ => rfl
  | rt :: rest, l2, h => by
    have h1 := h rt (List.mem_cons_self rt rest)
    have h2 : ∀ x ∈ rest, ¬(x.method = m ∧ x.host = hs ∧ x.path = p) :=
      fun x hx => h x (List.mem_cons_of_mem _ hx)
    simp [findRoute, h1, findRoute_append_of_none h2]

theorem findRoute_cons_match {H : Type} {m hs p : GoStr} {A : Route H}
    {rest : List (Route H)}
    (hA : A.method = m ∧ A.host = hs ∧ A.path = p) :
    findRoute m hs p (A :: rest) = some A.handler := by
  simp [findRoute, hA]

theorem tokenizeParts_pair_invalid {m u : GoStr}
    (hv : isValidMethod m = false) :
    tokenizeParts [m, u] = .error .methodNotAllowed := by
  simp [tokenizeParts, hv]

theorem tokenizeParts_badPath_iff :
    ∀ l : List GoStr, tokenizeParts l = .error .badPath ↔ l.length ≠ 2
  | [] => by simp [tokenizeParts]
  | [a] => by simp [tokenizeParts]
  | [a, b] => by
    by_cases hv : isValidMethod a = true
    · cases hp : urlParse (trimmedUrl b) <;>
        simp [tokenizeParts, hv, hp]
    · have hv2 : isValidMethod a = false := by
        revert hv; cases isValidMethod a <;> simp
      simp [tokenizeParts, hv2]
  | a :: b :: c :: rest => by
    simp [tokenizeParts]

theorem tokenizeParts_mna_iff (m u : GoStr) :
    tokenizeParts [m, u] = .error .methodNotAllowed ↔
      isValidMethod m = false := by
  by_cases hv : isValidMethod m = true
  · cases hp : urlParse (trimmedUrl u) <;>
      simp [tokenizeParts, hv, hp]
  · have hv2 : isValidMethod m = false := by
      revert hv; cases isValidMethod m <;> simp
    simp [tokenizeParts, hv2]

theorem isValidMethod_iff (m : GoStr) :
    isValidMethod m = true ↔
      ∃ v ∈ ["GET", "POST", "PUT", "DELETE", "HEAD", "OPTIONS"],
        equalFold (v.data) m = true := by
  simp [isValidMethod, List.any_map, List.any_eq_true]

theorem goodTrimmed_split {t : GoStr} (h : goodTrimmed t = true) :
    goodUrl t = true ∧
      (t = ['/'] ∨ (t.head? ≠ some '/' ∧ t.getLast? ≠ some '/')) := by
  simp only [goodTrimmed, Bool.and_eq_true, Bool.or_eq_true,
    decide_eq_true_eq] at h
  exact ⟨h.1, h.2⟩

end Lemmas

/-- Claim C1, counterexample: the claim says `tokenize` uppercases the
method, but `tokenize "get:/"` returns the method `"get"` verbatim,
which differs from the uppercased `"GET"`. -/
theorem tokenize_method_not_uppercased :
    tokenize (("get:/").data) = .ok (("get").data, [], ("/").data) ∧
      ("get").data ≠ ("GET").data :=
  ⟨rfl, by decide⟩

/-- Claim C1, amended: for every spec `m ++ ":" ++ u` (one separator)
that tokenizes successfully, the returned method component is the
method segment verbatim — its case is preserved, not uppercased. -/
theorem tokenize_method_verbatim (m u : GoStr)
    (res : GoStr × GoStr × GoStr) (hm : ':' ∉ m) (hu : ':' ∉ u)
    (hok : tokenize (m ++ ':' :: u) = .ok res) : res.1 = m := by
  rw [tokenize_sep hm hu] at hok
  by_cases hv : isValidMethod m = true
  · cases hp : urlParse (trimmedUrl u) with
    | none => simp [tokenizeParts, hv, hp] at hok
    | some w =>
      simp only [tokenizeParts, if_pos hv, hp] at hok
      cases hok
      rfl
  · have hv2 : isValidMethod m = false := by
      revert hv; cases isValidMethod m <;> simp
    rw [tokenizeParts_pair_invalid hv2] at hok
    cases hok

/-- Witness for the amended C1 theorem at the spec `get:/`. -/
theorem tokenize_method_verbatim_witness :
    ((("get").data, ([] : GoStr), ("/").data) :
      GoStr × GoStr × GoStr).1 = ("get").data :=
  tokenize_method_verbatim (("get").data) (("/").data) _
    (by decide) (by decide) rfl

/-- Claim C2, counterexample: dispatch is not panic-free.  A request
with method `PATCH` panics with `MethodNotAllowed` during dispatch, and
a request whose path contains `':'` panics with `BadPath` — both on an
empty registry where the claim promises the not-found response. -/
theorem dispatch_tokenize_panics :
    serveHTTP ([] : List (Route Nat)) (("PATCH").data) (("/x").data) =
        .error .methodNotAllowed ∧
      serveHTTP ([] : List (Route Nat)) (("GET").data) (("/a:b").data) =
        .error .badPath :=
  ⟨rfl, rfl⟩

/-- Claim C2, amended: for every request whose `method:path` string
tokenizes successfully, dispatch returns normally; when no registered
route's triple equals the request's tokenized triple — including on the
empty registry — it produces the default not-found response.  For other
requests the tokenizer's registration-time panics do recur at dispatch
time (see the counterexample); `NilHandler` alone can never arise at
dispatch. -/
theorem dispatch_unmatched_not_found {H : Type} (routes : List (Route H))
    (method urlPath m hs p : GoStr)
    (htok : tokenize (method ++ ':' :: urlPath) = .ok (m, hs, p))
    (hnone : ∀ rt ∈ routes,
      ¬(rt.method = m ∧ rt.host = hs ∧ rt.path = p)) :
    serveHTTP routes method urlPath = .ok .notFound := by
  simp only [serveHTTP, matchReq, htok, findRoute_none hnone]

/-- Witness for the amended C2 theorem: an empty registry and the
request `GET /nope` yield the not-found outcome. -/
theorem dispatch_unmatched_not_found_witness :
    serveHTTP ([] : List (Route Nat)) (("GET").data) (("/nope").data) =
      .ok .notFound :=
  dispatch_unmatched_not_found [] (("GET").data) (("/nope").data)
    (("GET").data) [] (("nope").data) rfl (by simp)

/-- Claim C3, counterexample: the claim says `POST:api.example.com/users`
yields the non-empty host `api.example.com`, but `tokenize` returns an
empty host with the whole authority-looking string left in the path. -/
theorem tokenize_hostpath_host_cex :
    tokenize (("POST:api.example.com/users").data) =
        .ok (("POST").data, [], ("api.example.com/users").data) ∧
      ([] : GoStr) ≠ ("api.example.com").data :=
  ⟨rfl, by decide⟩

/-- Claim C3, amended: a spec whose URL part trims to a plain reference
(no `'#'`, `'?'`, `'%'`, no ASCII control characters, and no leading
slash except the root) — which includes every `host/path`-shaped spec
such as `POST:api.example.com/users` — yields an EMPTY host, with the
entire trimmed URL part as the path.  A non-empty host is extracted
only when the trimmed URL part begins with `//` (but not `///`), e.g.
the spec `POST:///api.example.com/users`. -/
theorem tokenize_host_extraction (m u : GoStr) (hm : ':' ∉ m)
    (hu : ':' ∉ u) (hv : isValidMethod m = true)
    (hg : goodUrl (trimmedUrl u) = true)
    (hctl : (trimmedUrl u).any ctlByte = false) :
    tokenize (m ++ ':' :: u) = .ok (m, [], trimmedUrl u) ∧
      tokenize (("POST:///api.example.com/users").data) =
        .ok (("POST").data, ("api.example.com").data, ("/users").data) :=
  ⟨by rw [tokenize_sep hm hu, tokenizeParts_pair_valid hv hg hctl], rfl⟩

/-- Witness for the amended C3 theorem at `POST:api.example.com/users`. -/
theorem tokenize_host_extraction_witness :
    tokenize (("POST").data ++ ':' :: ("api.example.com/users").data) =
      .ok (("POST").data, [],
        trimmedUrl (("api.example.com/users").data)) :=
  (tokenize_host_extraction (("POST").data)
    (("api.example.com/users").data)
    (by decide) (by decide) (by decide) (by decide) (by decide)).1

/-- Claim C4, counterexample: registering `GET:/path-one` stores the
path `"path-one"`, which does NOT start with `'/'` — the leading slash
is stripped by the tokenizer, contradicting the claimed invariant. -/
theorem registered_path_no_leading_slash :
    Handle ([] : List (Route Nat)) (("GET:/path-one").data) (some 0) =
        ([⟨("GET").data, [], ("path-one").data, 0⟩], none) ∧
      (("path-one").data).head? ≠ some '/' :=
  ⟨rfl, by decide⟩

/-- Claim C4, amended: in every registry state reachable by successful
registrations whose trimmed URL part parses plainly (no `'#'`, `'?'`,
`'%'`, no leading or trailing slash except the root `"/"`), every
stored route path is non-empty and carries NO leading and no trailing
slash — except the root path, which is exactly `"/"`.  (The original
claim's "always starts with `/`" is reversed: only the root does.) -/
theorem registered_path_shape {H : Type} (r : List (Route H))
    (hr : ReachablePlain r) :
    ∀ rt ∈ r, rt.path ≠ [] ∧
      (rt.path.head? = some '/' → rt.path = ['/']) ∧
      (rt.path.getLast? = some '/' → rt.path = ['/']) := by
  induction hr with
  | empty => intro rt h; cases h
  | step r m u h hm hu hplain hr ih =>
    obtain ⟨hg, hshape⟩ := goodTrimmed_split hplain
    have hstep : ∀ e : TokErr, tokenize (m ++ ':' :: u) = .error e →
        ∀ rt ∈ (Handle r (m ++ ':' :: u) (some h)).1,
          rt.path ≠ [] ∧
            (rt.path.head? = some '/' → rt.path = ['/']) ∧
            (rt.path.getLast? = some '/' → rt.path = ['/']) := by
      intro e ht rt hmem
      rw [show (Handle r (m ++ ':' :: u) (some h)).1 = r by
        simp [Handle, ht]] at hmem
      exact ih rt hmem
    by_cases hv : isValidMethod m = true
    · by_cases hctl : (trimmedUrl u).any ctlByte = true
      · exact hstep .urlParseFailure (by
          rw [tokenize_sep hm hu, tokenizeParts_pair_parsefail hv
            (urlParse_ctl (goodUrl_not_hash hg) hctl)])
      · have hctl2 : (trimmedUrl u).any ctlByte = false := by
          revert hctl; cases (trimmedUrl u).any ctlByte <;> simp
        have ht : tokenize (m ++ ':' :: u) = .ok (m, [], trimmedUrl u) := by
          rw [tokenize_sep hm hu, tokenizeParts_pair_valid hv hg hctl2]
        intro rt hmem
        rw [show (Handle r (m ++ ':' :: u) (some h)).1 =
            r ++ [⟨m, [], trimmedUrl u, h⟩] by simp [Handle, ht]] at hmem
        rcases List.mem_append.1 hmem with hold | hnew
        · exact ih rt hold
        · rcases List.mem_singleton.1 hnew with rfl
          refine ⟨trimmedUrl_ne_nil u, ?_, ?_⟩
          · intro hh
            rcases hshape with hroot | ⟨hhead, _⟩
            · exact hroot
            · exact absurd hh hhead
          · intro hh
            rcases hshape with hroot | ⟨_, hlast⟩
            · exact hroot
            · exact absurd hh hlast
    · have hv2 : isValidMethod m = false := by
        revert hv; cases isValidMethod m <;> simp
      exact hstep .methodNotAllowed (by
        rw [tokenize_sep hm hu, tokenizeParts_pair_invalid hv2])

/-- Witness for the amended C4 theorem: the route stored by registering
`GET:/x` on the empty router satisfies the path-shape invariant. -/
theorem registered_path_shape_witness :
    ((⟨("GET").data, [], ("x").data, 0⟩ : Route Nat)).path ≠ [] ∧
      (((⟨("GET").data, [], ("x").data, 0⟩ : Route Nat)).path.head? =
          some '/' →
        ((⟨("GET").data, [], ("x").data, 0⟩ : Route Nat)).path = ['/']) ∧
      (((⟨("GET").data, [], ("x").data, 0⟩ : Route Nat)).path.getLast? =
          some '/' →
        ((⟨("GET").data, [], ("x").data, 0⟩ : Route Nat)).path = ['/']) :=
  registered_path_shape _
    (ReachablePlain.step [] (("GET").data) (("/x").data) 0
      (by decide) (by decide) (by decide) ReachablePlain.empty)
    (⟨("GET").data, [], ("x").data, 0⟩ : Route Nat) (by decide)

/-- Claim C5, confirmed: with route A registered before route B on the
same `(method, host, path)` triple — A being the first route carrying
that triple — a request tokenizing to that triple is dispatched to A's
handler, and never to B's (when their handlers differ): the linear scan
stops at the first equal triple in insertion order. -/
theorem first_match_wins {H : Type} (l1 l2 l3 : List (Route H))
    (A B : Route H) (method urlPath m hs p : GoStr)
    (htok : tokenize (method ++ ':' :: urlPath) = .ok (m, hs, p))
    (hA : A.method = m ∧ A.host = hs ∧ A.path = p)
    (_hB : B.method = m ∧ B.host = hs ∧ B.path = p)
    (hl1 : ∀ rt ∈ l1, ¬(rt.method = m ∧ rt.host = hs ∧ rt.path = p)) :
    matchReq (l1 ++ A :: (l2 ++ B :: l3)) method urlPath =
        .ok (some A.handler) ∧
      (A.handler ≠ B.handler →
        matchReq (l1 ++ A :: (l2 ++ B :: l3)) method urlPath ≠
          .ok (some B.handler)) := by
  have hmain : matchReq (l1 ++ A :: (l2 ++ B :: l3)) method urlPath =
      .ok (some A.handler) := by
    simp only [matchReq, htok, findRoute_append_of_none hl1,
      findRoute_cons_match hA]
  refine ⟨hmain, fun hne hcontra => hne ?_⟩
  rw [hmain] at hcontra
  exact Option.some.inj (Except.ok.inj hcontra)

/-- Witness for C5: `GET:/y → 9`, then `GET:/x → 1`, then `GET:/x → 2`;
dispatching `GET /x` selects handler 1, never handler 2. -/
theorem first_match_wins_witness :
    matchReq ([⟨("GET").data, [], ("y").data, 9⟩,
        ⟨("GET").data, [], ("x").data, 1⟩,
        ⟨("GET").data, [], ("x").data, 2⟩] : List (Route Nat))
      (("GET").data) (("/x").data) = .ok (some 1) ∧
      ((1 : Nat) ≠ 2 →
        matchReq ([⟨("GET").data, [], ("y").data, 9⟩,
            ⟨("GET").data, [], ("x").data, 1⟩,
            ⟨("GET").data, [], ("x").data, 2⟩] : List (Route Nat))
          (("GET").data) (("/x").data) ≠ .ok (some 2)) :=
  first_match_wins [⟨("GET").data, [], ("y").data, 9⟩] [] []
    ⟨("GET").data, [], ("x").data, 1⟩ ⟨("GET").data, [], ("x").data, 2⟩
    (("GET").data) (("/x").data) (("GET").data) [] (("x").data)
    rfl ⟨rfl, rfl, rfl⟩ ⟨rfl, rfl, rfl⟩ (by decide)

/-- Claim C6, confirmed: `tokenize` fails with `BadPath` exactly when
the input does not contain exactly one `':'` (equivalently, splitting
on `':'` does not yield exactly two segments); with exactly one
separator `BadPath` is never raised. -/
theorem badPath_iff_bad_separator_count (s : GoStr) :
    (tokenize s = .error .badPath ↔ s.count ':' ≠ 1) ∧
      ((splitOnChar ':' s).length ≠ 2 ↔ s.count ':' ≠ 1) := by
  have hlen := length_splitOnChar ':' s
  have hiff : (splitOnChar ':' s).length ≠ 2 ↔ s.count ':' ≠ 1 := by
    rw [hlen]; omega
  refine ⟨?_, hiff⟩
  rw [tokenize, tokenizeParts_badPath_iff]
  exact hiff

/-- Claim C7, confirmed: with exactly one separator, `tokenize` fails
with `MethodNotAllowed` exactly when the method segment matches none of
the six allow-listed verbs case-insensitively (`equalFold` models Go's
`strings.EqualFold`; the ASCII hypothesis scopes the model to the
inputs where simple lower-casing agrees with Go's Unicode folding). -/
theorem methodNotAllowed_iff_invalid (m u : GoStr) (hm : ':' ∉ m)
    (hu : ':' ∉ u) (_hascii : ∀ c ∈ m, c.toNat < 128) :
    tokenize (m ++ ':' :: u) = .error .methodNotAllowed ↔
      ¬∃ v ∈ ["GET", "POST", "PUT", "DELETE", "HEAD", "OPTIONS"],
        equalFold (v.data) m = true := by
  rw [tokenize_sep hm hu, tokenizeParts_mna_iff, ← isValidMethod_iff]
  constructor
  · intro hfalse htrue
    rw [htrue] at hfalse
    cases hfalse
  · intro hnot
    revert hnot
    cases isValidMethod m <;> simp

/-- Witness for C7 at the invalid method `PATCH` (and spec `PATCH:/x`). -/
theorem methodNotAllowed_iff_invalid_witness :
    tokenize (("PATCH").data ++ ':' :: ("/x").data) =
      .error .methodNotAllowed :=
  (methodNotAllowed_iff_invalid (("PATCH").data) (("/x").data)
    (by decide) (by decide) (by decide)).mpr (by decide)

/-- Claim C8, confirmed: `Handle` and `HandleFunc` called with an
absent (`nil`) handler fail with the `NilHandler` panic and leave the
route sequence exactly as it was — the check precedes any mutation. -/
theorem nil_handler_rejected {H : Type} :
    ∀ (r : List (Route H)) (p : GoStr),
      Handle r p none = (r, some RegErr.nilHandler) ∧
        HandleFunc r p none = (r, some RegErr.nilHandler) :=
  fun _ _ => ⟨rfl, rfl⟩

/-- Claim C9, confirmed: `tokenize` is deterministic — equal inputs
produce equal `(method, host, path)` results.  Freedom from side
effects holds by construction: the embedded `tokenize`, like the Go
source, reads and writes no state outside its argument. -/
theorem tokenize_deterministic (s1 s2 : GoStr) (h : s1 = s2) :
    tokenize s1 = tokenize s2 := by rw [h]

/-- Witness for C9 at the spec `GET:/`. -/
theorem tokenize_deterministic_witness :
    tokenize (("GET:/").data) = tokenize (("GET:/").data) :=
  tokenize_deterministic (("GET:/").data) (("GET:/").data) rfl

/-- Claim C10, confirmed: every successful `Handle` call appends
exactly one route at the end: the new sequence is the old one plus one
final element, its length grows by one, and the existing prefix is
unchanged (hence the relative order of prior entries is preserved). -/
theorem handle_appends_one {H : Type} (r : List (Route H)) (p : GoStr)
    (h : H) (r2 : List (Route H)) (hok : Handle r p (some h) = (r2, none)) :
    ∃ rt, r2 = r ++ [rt] ∧ r2.length = r.length + 1 ∧
      r2.take r.length = r := by
  unfold Handle at hok
  cases ht : tokenize p with
  | error e =>
    rw [ht] at hok
    simp at hok
  | ok trip =>
    obtain ⟨m, hs, pp⟩ := trip
    rw [ht] at hok
    simp only [Prod.mk.injEq, and_true] at hok
    refine ⟨⟨m, hs, pp, h⟩, hok.symm, ?_, ?_⟩
    · rw [← hok]; simp
    · rw [← hok]; simp [List.take_left]

/-- Witness for C10: registering `GET:/x` on the empty registry yields
the one-route sequence. -/
theorem handle_appends_one_witness :
    ∃ rt : Route Nat,
      ([⟨("GET").data, [], ("x").data, 5⟩] : List (Route Nat)) =
          [] ++ [rt] ∧
        ([⟨("GET").data, [], ("x").data, 5⟩] :
            List (Route Nat)).length =
          ([] : List (Route Nat)).length + 1 ∧
        ([⟨("GET").data, [], ("x").data, 5⟩] :
            List (Route Nat)).take ([] : List (Route Nat)).length = [] :=
  handle_appends_one [] (("GET:/x").data) 5
    [⟨("GET").data, [], ("x").data, 5⟩] rfl

end RiteGoRouter
